import Mathlib

/-!
Shallow embedding of `src/services/rateLimit.ts`.

The queue (`ThrottleQueue`) is modelled as a small-step event system over the
cooperative single-threaded JavaScript event loop: each `pump()` invocation
runs synchronously up to its first `await` (either the pacing `sleep` or the
job body), so the synchronous prefix of `pump` is one atomic state update
(`ThrottleQueue.pump`), and the resumptions after `await sleep(waitMs)` and
after the job body settle are separate events (`Ev.fire`, `Ev.complete`).

Ghost fields (`time`, `tasks`, `starts`, `completed`, `submitted`) record the
virtual clock, the suspended `pump` instances, the log of job starts (newest
first), the number of completed jobs and the submission log; the remaining
fields mirror the class fields of the source.
-/

/-- A suspended `pump()` instance: either parked in `await sleep(waitMs)`
before starting its job (with its timer deadline), or awaiting the job body
in `await job.fn()`. -/
inductive PumpTask where
  | sleeping (job : Nat) (wake : Nat)
  | runningBody (job : Nat)
deriving DecidableEq

/-- State of a `ThrottleQueue` instance plus the ghost event-loop bookkeeping. -/
structure ThrottleQueue where
  concurrency : Nat
  minTimeMs : Nat
  running : Nat
  lastStartAt : Nat
  queue : List Nat
  time : Nat
  tasks : List PumpTask
  starts : List (Nat × Nat)
  completed : Nat
  submitted : List Nat
deriving DecidableEq

/-- Line 43 of the source: `Math.max(0, this.minTimeMs - (now - this.lastStartAt))`,
computed over the integers exactly as JavaScript number arithmetic does here. -/
def pacingWait (minTimeMs time lastStartAt : Nat) : Int :=
  max 0 ((minTimeMs : Int) - ((time : Int) - (lastStartAt : Int)))

/-- The synchronous prefix of `pump()` (lines 34-45): the concurrency guard,
the `shift` of the queue head, the `running` increment, and then either parking
in `sleep(waitMs)` (when `waitMs > 0`) or starting the job at the current time
(setting `lastStartAt` and suspending at `await job.fn()`). -/
def ThrottleQueue.pump (s : ThrottleQueue) : ThrottleQueue :=
  if s.running ≥ s.concurrency then s
  else
    match s.queue with
    | [] => s
    | j :: rest =>
      let s1 := { s with queue := rest, running := s.running + 1 }
      let waitMs := pacingWait s1.minTimeMs s1.time s1.lastStartAt
      if 0 < waitMs then
        { s1 with tasks := s1.tasks ++ [PumpTask.sleeping j (s1.time + waitMs.toNat)] }
      else
        { s1 with lastStartAt := s1.time,
                  starts := (j, s1.time) :: s1.starts,
                  tasks := s1.tasks ++ [PumpTask.runningBody j] }

/-- External events driving the queue: `schedule` (push plus a `pump()` call,
lines 27-32), the clock advancing, a pacing timer firing (resuming a `pump`
parked in `sleep`: lines 45-47), and a job body settling (the `finally` block,
lines 51-55: decrement `running`, call `pump()` again). -/
inductive Ev where
  | schedule (j : Nat)
  | tick (d : Nat)
  | fire (i : Nat)
  | complete (i : Nat)
deriving DecidableEq

/-- One event of the queue system.  A timer resumes no earlier than its
deadline, so `fire` advances the clock to `max time wake`. -/
def step (s : ThrottleQueue) (e : Ev) : ThrottleQueue :=
  match e with
  | .schedule j =>
    ThrottleQueue.pump { s with queue := s.queue ++ [j], submitted := s.submitted ++ [j] }
  | .tick d => { s with time := s.time + d }
  | .fire i =>
    match s.tasks[i]? with
    | some (PumpTask.sleeping j wake) =>
      let t := max s.time wake
      { s with time := t, lastStartAt := t,
               starts := (j, t) :: s.starts,
               tasks := s.tasks.set i (PumpTask.runningBody j) }
    | _ => s
  | .complete i =>
    match s.tasks[i]? with
    | some (PumpTask.runningBody _) =>
      ThrottleQueue.pump
        { s with tasks := s.tasks.eraseIdx i, running := s.running - 1,
                 completed := s.completed + 1 }
    | _ => s

/-- Run a list of events from a state. -/
def run (s : ThrottleQueue) (evs : List Ev) : ThrottleQueue :=
  evs.foldl step s

/-- The constructor (lines 22-25): it performs no validation and merely stores
the two parameters, with `running = 0`, `lastStartAt = 0` and an empty queue. -/
def ThrottleQueue.init (concurrency minTimeMs : Nat) : ThrottleQueue :=
  { concurrency := concurrency, minTimeMs := minTimeMs, running := 0,
    lastStartAt := 0, queue := [], time := 0, tasks := [], starts := [],
    completed := 0, submitted := [] }

/-- A state is reachable when some event sequence produces it from a freshly
constructed queue. -/
def Reachable (concurrency minTimeMs : Nat) (s : ThrottleQueue) : Prop :=
  ∃ evs, run (ThrottleQueue.init concurrency minTimeMs) evs = s

/-- Consecutive start timestamps (list newest first) are at least `D` apart. -/
def gapsOK (D : Nat) : List (Nat × Nat) → Bool
  | (_, t2) :: (j1, t1) :: rest =>
    decide (t1 + D ≤ t2) && gapsOK D ((j1, t1) :: rest)
  | _ => true

/-- Job ids of the tasks still parked in their pacing sleep, in task order. -/
def sleepJobs (l : List PumpTask) : List Nat :=
  l.filterMap fun t =>
    match t with
    | PumpTask.sleeping j _ => some j
    | PumpTask.runningBody _ => none

/-- Whether a task is executing its job body. -/
def isRB : PumpTask → Bool
  | PumpTask.runningBody _ => true
  | PumpTask.sleeping _ _ => false

/-- Number of tasks currently executing their job body. -/
def countRB (l : List PumpTask) : Nat := (l.filter isRB).length

/-- Invariant behind claim C2: the `running` counter equals the number of
suspended `pump` instances, never exceeds `concurrency`, and the number of
started jobs equals the in-flight bodies plus the completed ones. -/
def Inv2 (s : ThrottleQueue) : Prop :=
  s.running = s.tasks.length ∧ s.running ≤ s.concurrency
    ∧ s.starts.length = countRB s.tasks + s.completed

/-- Invariant behind the amended claim C1: with `concurrency = 1` at most one
`pump` instance is ever suspended, `lastStartAt` tracks the newest start, any
pacing timer has deadline exactly `lastStartAt + minTimeMs`, and consecutive
start timestamps are at least `minTimeMs` apart. -/
def PaceInv (s : ThrottleQueue) : Prop :=
  s.concurrency = 1
    ∧ gapsOK s.minTimeMs s.starts = true
    ∧ (match s.starts with
       | [] => s.lastStartAt = 0
       | (_, t) :: _ => s.lastStartAt = t)
    ∧ s.lastStartAt ≤ s.time
    ∧ (∀ j w, PumpTask.sleeping j w ∈ s.tasks → w = s.lastStartAt + s.minTimeMs)
    ∧ s.running = s.tasks.length
    ∧ s.tasks.length ≤ 1

/-- Invariant behind claim C7: with `concurrency = 1` the submission log is
exactly the chronological start log, then the job (at most one) waiting out
its pacing sleep, then the still-queued jobs — so starts follow submission
order. -/
def FifoInv (s : ThrottleQueue) : Prop :=
  s.concurrency = 1
    ∧ s.submitted = s.starts.reverse.map Prod.fst ++ sleepJobs s.tasks ++ s.queue
    ∧ s.running = s.tasks.length
    ∧ s.tasks.length ≤ 1

/-- An error value as `withRetry` inspects it: the numeric `status`, `code`
and `response.status` fields (present exactly when the JS value is a number)
and the message string `String(err.message)`. -/
structure JsError where
  status : Option Int := none
  code : Option Int := none
  respStatus : Option Int := none
  message : String := ""
deriving DecidableEq

/-- ASCII lowercasing of a string's characters; agrees with JS `toLowerCase`
on the ASCII error messages these functions inspect. -/
def lowerData (s : String) : List Char := s.data.map Char.toLower

def startsWithChars : List Char → List Char → Bool
  | _, [] => true
  | [], _ :: _ => false
  | c :: cs, p :: ps => c == p && startsWithChars cs ps

/-- JS `String.prototype.includes` on character lists. -/
def containsSubChars : List Char → List Char → Bool
  | [], ps => ps.isEmpty
  | c :: cs, ps => startsWithChars (c :: cs) ps || containsSubChars cs ps

/-- JS regex word character, `[A-Za-z0-9_]`. -/
def isWordChar (c : Char) : Bool := c.isAlphanum || c == '_'

/-- Try the alternation `(429|500|502|503|504)` at the head of the list with
the trailing word boundary `\b`; the leading boundary is the caller's check. -/
def statusAt : List Char → Option Int
  | a :: b :: c :: rest =>
    if rest.head?.elim true (fun ch => !isWordChar ch) then
      if a == '4' && b == '2' && c == '9' then some 429
      else if a == '5' && b == '0' && c == '0' then some 500
      else if a == '5' && b == '0' && c == '2' then some 502
      else if a == '5' && b == '0' && c == '3' then some 503
      else if a == '5' && b == '0' && c == '4' then some 504
      else none
    else none
  | _ => none

/-- Left-to-right scan of `/\b(429|500|502|503|504)\b/` carrying the previous
character for the leading word boundary. -/
def findStatusGo : Option Char → List Char → Option Int
  | _, [] => none
  | prev, c :: rest =>
    let atBoundary := prev.elim true (fun p => !isWordChar p)
    match (if atBoundary then statusAt (c :: rest) else none) with
    | some n => some n
    | none => findStatusGo (some c) rest

def findStatusInMessage (msg : String) : Option Int :=
  findStatusGo none msg.data

/-- Lines 137-147 of the source: `status`, then `code`, then
`response.status`, then a `(429)`-style token mined from the message. -/
def extractStatusCode (e : JsError) : Option Int :=
  match e.status with
  | some n => some n
  | none =>
    match e.code with
    | some n => some n
    | none =>
      match e.respStatus with
      | some n => some n
      | none => findStatusInMessage e.message

/-- Lines 115-135 of the source: the retryable-failure classifier. -/
def shouldRetry (status : Option Int) (msg : String) (err : JsError) : Bool :=
  let text := lowerData msg
  if status = some 429 then true
  else if containsSubChars text "resource_exhausted".data then true
  else if containsSubChars text "quota".data then true
  else if containsSubChars text "rate limit".data then true
  else if containsSubChars text "network".data || containsSubChars text "fetch".data then true
  else if containsSubChars text "timeout".data then true
  else if err.respStatus = some 429 then true
  else false

/-- JS `\s` (restricted to its ASCII members, which cover the messages the
retry-hint regexes are aimed at). -/
def isWsChar (c : Char) : Bool :=
  c == ' ' || c == '\t' || c == '\n' || c == '\r' || c == Char.ofNat 11 || c == Char.ofNat 12

def dropWs : List Char → List Char
  | [] => []
  | c :: cs => if isWsChar c then dropWs cs else c :: cs

def readDigitsGo (acc : Nat) : List Char → Nat × List Char
  | [] => (acc, [])
  | c :: cs => if c.isDigit then readDigitsGo (acc * 10 + (c.toNat - 48)) cs else (acc, c :: cs)

/-- Greedy `[0-9]+`: `Number` of the maximal digit run, with the rest.
Greediness is exact here: in all three patterns below, `[0-9]+` and `\s*` can
never succeed after giving back characters, because a given-back digit is
neither `s` nor whitespace. -/
def readDigits : List Char → Option (Nat × List Char)
  | [] => none
  | c :: cs => if c.isDigit then some (readDigitsGo (c.toNat - 48) cs) else none

def matchLit : List Char → List Char → Option (List Char)
  | cs, [] => some cs
  | [], _ :: _ => none
  | c :: cs, p :: ps => if c == p then matchLit cs ps else none

/-- The regex `/RetryDelay:\s*([0-9]+)\s*s/i` at one position of the
lowercased message; yields `Number(m[1]) * 1000`. -/
def retryDelayAt (cs : List Char) : Option Nat :=
  (matchLit cs "retrydelay:".data).bind fun r1 =>
    (readDigits (dropWs r1)).bind fun nr =>
      match dropWs nr.2 with
      | 's' :: _ => some (nr.1 * 1000)
      | _ => none

/-- The regex `/retry\s*after\s*([0-9]+)\s*s/i` at one position; yields
`Number(m2[1]) * 1000`. -/
def retryAfterSecAt (cs : List Char) : Option Nat :=
  (matchLit cs "retry".data).bind fun r1 =>
    (matchLit (dropWs r1) "after".data).bind fun r2 =>
      (readDigits (dropWs r2)).bind fun nr =>
        match dropWs nr.2 with
        | 's' :: _ => some (nr.1 * 1000)
        | _ => none

/-- The regex `/retryAfter:\s*([0-9]+)/i` at one position; yields
`Number(m3[1])` milliseconds. -/
def retryAfterMsAt (cs : List Char) : Option Nat :=
  (matchLit cs "retryafter:".data).bind fun r1 =>
    (readDigits (dropWs r1)).map fun nr => nr.1

/-- Left-to-right scan for the first position where a matcher succeeds. -/
def scanFor (p : List Char → Option Nat) : List Char → Option Nat
  | [] => p []
  | c :: rest =>
    match p (c :: rest) with
    | some n => some n
    | none => scanFor p rest

/-- Lines 149-162 of the source: the three server-hint patterns, first match
wins, in this order. -/
def parseRetryDelayMs (message : String) : Option Nat :=
  let cs := lowerData message
  match scanFor retryDelayAt cs with
  | some n => some n
  | none =>
    match scanFor retryAfterSecAt cs with
    | some n => some n
    | none => scanFor retryAfterMsAt cs

/-- JS `Math.round`: round half toward positive infinity. -/
def jsRound (q : ℚ) : ℤ := ⌊q + 1 / 2⌋

/-- Lines 94-105 of the source: the delay slept before retry number `attempt`;
`rand` stands for the `Math.random()` draw. -/
def retryDelayMs (baseDelayMs maxDelayMs jitterRatio : ℚ) (msg : String)
    (attempt : Nat) (rand : ℚ) : ℤ :=
  let serverDelayMs := parseRetryDelayMs msg
  let expBackoff : ℚ := min maxDelayMs (baseDelayMs * 2 ^ (attempt - 1))
  let delayMs : ℚ := max (serverDelayMs.elim 0 (fun n => (n : ℚ))) expBackoff
  let jitter : ℚ := delayMs * jitterRatio * (rand * 2 - 1)
  max 250 (jsRound (delayMs + jitter))

/-- Stated from the spec for claim C5: the base delay before jitter,
`max(serverAdvisedMs or 0, min(maxDelayMs, baseDelayMs * 2^(attempt-1)))`. -/
def preJitterDelaySpec (baseDelayMs maxDelayMs : ℚ) (msg : String) (attempt : Nat) : ℚ :=
  max ((parseRetryDelayMs msg).elim 0 (fun n => (n : ℚ)))
    (min maxDelayMs (baseDelayMs * 2 ^ (attempt - 1)))

/-- The option record of `withRetry` with the source's defaults
(lines 74-77). -/
structure RetryOpts where
  maxRetries : Nat := 5
  baseDelayMs : ℚ := 1200
  maxDelayMs : ℚ := 20000
  jitterRatio : ℚ := 1 / 4
deriving DecidableEq

/-- Observable outcome of a `withRetry` call: the settled result, how many
times the operation was invoked, and the `(attempt, delayMs)` pairs passed to
the `onRetry` observer (and slept), in order. -/
structure RetryResult (T : Type) where
  result : Except JsError T
  calls : Nat
  retries : List (Nat × Int)

/-- The `while (true)` loop of `withRetry` (lines 79-113).  `fn k` is the
outcome of the k-th invocation of the operation, `fuel = maxRetries - attempt`
counts the retries still allowed (the loop continues only while
`attempt <= maxRetries`, so the initial fuel `maxRetries` is exact, and
`attempt` below is the just-incremented counter `maxRetries - fuel + 1`). -/
def withRetryGo {T : Type} (fn : Nat → Except JsError T) (maxRetries : Nat)
    (baseDelayMs maxDelayMs jitterRatio : ℚ) (rand : Nat → ℚ) :
    Nat → Nat → RetryResult T
  | k, fuel =>
    match fn k with
    | .ok v => ⟨.ok v, k + 1, []⟩
    | .error err =>
      if shouldRetry (extractStatusCode err) err.message err then
        match fuel with
        | 0 => ⟨.error err, k + 1, []⟩
        | fuel' + 1 =>
          let attempt := maxRetries - fuel'
          let delay := retryDelayMs baseDelayMs maxDelayMs jitterRatio err.message attempt (rand k)
          let r := withRetryGo fn maxRetries baseDelayMs maxDelayMs jitterRatio rand (k + 1) fuel'
          ⟨r.result, r.calls, (attempt, delay) :: r.retries⟩
      else ⟨.error err, k + 1, []⟩

/-- Lines 64-113 of the source, as a function of the per-call outcomes and the
randomness oracle. -/
def withRetry {T : Type} (fn : Nat → Except JsError T) (opts : RetryOpts)
    (rand : Nat → ℚ) : RetryResult T :=
  withRetryGo fn opts.maxRetries opts.baseDelayMs opts.maxDelayMs opts.jitterRatio rand
    0 opts.maxRetries

/-- Stated from the spec for claim C3: the disjunctive description of the
retryable class. -/
def retryableSpec (e : JsError) : Prop :=
  extractStatusCode e = some 429
    ∨ containsSubChars (lowerData e.message) "resource_exhausted".data = true
    ∨ containsSubChars (lowerData e.message) "quota".data = true
    ∨ containsSubChars (lowerData e.message) "rate limit".data = true
    ∨ containsSubChars (lowerData e.message) "network".data = true
    ∨ containsSubChars (lowerData e.message) "fetch".data = true
    ∨ containsSubChars (lowerData e.message) "timeout".data = true
    ∨ e.respStatus = some 429

/-- Concrete errors used by the claim witnesses below. -/
def invalidArgErr : JsError := { message := "invalid argument" }

def serverErr502 : JsError := { message := "Server error (502)" }

def resourceExhaustedErr : JsError := { message := "RESOURCE_EXHAUSTED" }

/-- Invariant behind claim C6: with `concurrency = 0` the guard
`running >= concurrency` always holds, so `pump` never dequeues and no job
ever starts. -/
def DeadInv (s : ThrottleQueue) : Prop :=
  s.concurrency = 0 ∧ s.running = 0 ∧ s.tasks = [] ∧ s.starts = []

theorem countRB_set_toRB (j' : Nat) :
    ∀ (l : List PumpTask) (i j w : Nat), l[i]? = some (PumpTask.sleeping j w) →
      countRB (l.set i (PumpTask.runningBody j')) = countRB l + 1 := by
  intro l
  induction l with
  | nil => intro i j w h; simp at h
  | cons c tl ih =>
    intro i j w h
    cases i with
    | zero =>
      simp at h
      subst h
      simp [countRB, isRB, List.filter_cons]
    | succ i =>
      simp at h
      simp only [List.set, countRB, List.filter_cons]
      have := ih i j w h
      split <;> simp [countRB] at this ⊢ <;> omega

theorem countRB_eraseIdx_RB :
    ∀ (l : List PumpTask) (i j : Nat), l[i]? = some (PumpTask.runningBody j) →
      countRB (l.eraseIdx i) + 1 = countRB l := by
  intro l
  induction l with
  | nil => intro i j h; simp at h
  | cons c tl ih =>
    intro i j h
    cases i with
    | zero =>
      simp at h
      subst h
      simp [countRB, isRB, List.filter_cons]
    | succ i =>
      simp at h
      simp only [List.eraseIdx, countRB, List.filter_cons]
      have := ih i j h
      split <;> simp [countRB] at this ⊢ <;> omega

theorem pump_inv2 (s : ThrottleQueue) (h : Inv2 s) : Inv2 (ThrottleQueue.pump s) := by
  obtain ⟨h1, h2, h3⟩ := h
  unfold ThrottleQueue.pump
  split
  · exact ⟨h1, h2, h3⟩
  next hlt =>
    split
    · exact ⟨h1, h2, h3⟩
    · dsimp only
      split
      · refine ⟨?_, ?_, ?_⟩ <;>
          simp [countRB, isRB, List.filter_append, h1, h3] <;> omega
      · refine ⟨?_, ?_, ?_⟩ <;>
          simp [countRB, isRB, List.filter_append, h1, h3] <;> omega

theorem step_inv2 (s : ThrottleQueue) (e : Ev) (h : Inv2 s) : Inv2 (step s e) := by
  obtain ⟨h1, h2, h3⟩ := h
  match e with
  | .schedule j =>
    exact pump_inv2 _ ⟨h1, h2, h3⟩
  | .tick d =>
    exact ⟨h1, h2, h3⟩
  | .fire i =>
    simp only [step]
    split
    next j wake heq =>
      refine ⟨?_, ?_, ?_⟩ <;>
        simp [h1, h2, h3, countRB_set_toRB j _ i j wake heq] <;> omega
    next => exact ⟨h1, h2, h3⟩
  | .complete i =>
    simp only [step]
    split
    next j heq =>
      have hlen : i < s.tasks.length := by
        rcases List.getElem?_eq_some.mp heq with ⟨hl, _⟩
        exact hl
      apply pump_inv2
      refine ⟨?_, ?_, ?_⟩
      · simp [List.length_eraseIdx, hlen, h1]
      · dsimp only
        omega
      · have := countRB_eraseIdx_RB s.tasks i j heq
        dsimp only
        omega
    next => exact ⟨h1, h2, h3⟩

theorem run_inv2 : ∀ (evs : List Ev) (s : ThrottleQueue), Inv2 s → Inv2 (run s evs) := by
  intro evs
  induction evs with
  | nil => intro s h; exact h
  | cons e rest ih =>
    intro s h
    exact ih (step s e) (step_inv2 s e h)

theorem pump_concurrency (s : ThrottleQueue) :
    (ThrottleQueue.pump s).concurrency = s.concurrency := by
  unfold ThrottleQueue.pump
  split
  · rfl
  · split
    · rfl
    · dsimp only; split <;> rfl

theorem pump_minTimeMs (s : ThrottleQueue) :
    (ThrottleQueue.pump s).minTimeMs = s.minTimeMs := by
  unfold ThrottleQueue.pump
  split
  · rfl
  · split
    · rfl
    · dsimp only; split <;> rfl

theorem step_concurrency (s : ThrottleQueue) (e : Ev) :
    (step s e).concurrency = s.concurrency := by
  match e with
  | .schedule j => simp only [step]; rw [pump_concurrency]
  | .tick d => rfl
  | .fire i => simp only [step]; split <;> rfl
  | .complete i => simp only [step]; split
                   · rw [pump_concurrency]
                   · rfl

theorem step_minTimeMs (s : ThrottleQueue) (e : Ev) :
    (step s e).minTimeMs = s.minTimeMs := by
  match e with
  | .schedule j => simp only [step]; rw [pump_minTimeMs]
  | .tick d => rfl
  | .fire i => simp only [step]; split <;> rfl
  | .complete i => simp only [step]; split
                   · rw [pump_minTimeMs]
                   · rfl

theorem run_concurrency : ∀ (evs : List Ev) (s : ThrottleQueue),
    (run s evs).concurrency = s.concurrency := by
  intro evs
  induction evs with
  | nil => intro s; rfl
  | cons e rest ih => intro s; simp only [run, List.foldl] at ih ⊢
                      rw [ih (step s e), step_concurrency]

theorem run_minTimeMs : ∀ (evs : List Ev) (s : ThrottleQueue),
    (run s evs).minTimeMs = s.minTimeMs := by
  intro evs
  induction evs with
  | nil => intro s; rfl
  | cons e rest ih => intro s; simp only [run, List.foldl] at ih ⊢
                      rw [ih (step s e), step_minTimeMs]

theorem getElem?_len_le_one {l : List PumpTask} {i : Nat} {a : PumpTask}
    (h1 : l.length ≤ 1) (h : l[i]? = some a) : l = [a] ∧ i = 0 := by
  match l, i with
  | [], i => simp at h
  | [b], 0 => simp at h; subst h; exact ⟨rfl, rfl⟩
  | [b], i + 1 => simp at h
  | b :: c :: tl, _ => simp at h1

theorem pump_pace (s : ThrottleQueue) (h : PaceInv s) : PaceInv (ThrottleQueue.pump s) := by
  obtain ⟨hc, hg, hl, hlt, hw, hr, ht1⟩ := h
  unfold ThrottleQueue.pump
  split
  · exact ⟨hc, hg, hl, hlt, hw, hr, ht1⟩
  next hrun =>
    have hr0 : s.running = 0 := by omega
    have htnil : s.tasks = [] := by
      rw [hr0] at hr
      exact (List.length_eq_zero.mp hr.symm)
    split
    · exact ⟨hc, hg, hl, hlt, hw, hr, ht1⟩
    next j rest heq =>
      dsimp only
      split
      next hpos =>
        refine ⟨hc, hg, hl, hlt, ?_, ?_, ?_⟩
        · intro j' w' hmem
          simp only [htnil, List.nil_append, List.mem_singleton, PumpTask.sleeping.injEq] at hmem
          obtain ⟨hj, hwk⟩ := hmem
          subst hwk
          unfold pacingWait at hpos ⊢
          dsimp only
          omega
        · simp [htnil, hr0]
        · simp [htnil]
      next hneg =>
        unfold pacingWait at hneg
        refine ⟨hc, ?_, ?_, le_refl _, ?_, ?_, ?_⟩
        · cases hs : s.starts with
          | nil => simp [gapsOK]
          | cons p tl =>
            obtain ⟨j1, t1⟩ := p
            rw [hs] at hl hg
            have hgap : t1 + s.minTimeMs ≤ s.time := by
              simp only at hl
              omega
            simp [gapsOK, hgap, hg]
        · rfl
        · intro j' w' hmem
          simp [htnil] at hmem
        · simp [htnil, hr0]
        · simp [htnil]

theorem step_pace (s : ThrottleQueue) (e : Ev) (h : PaceInv s) : PaceInv (step s e) := by
  obtain ⟨hc, hg, hl, hlt, hw, hr, ht1⟩ := h
  match e with
  | .schedule j =>
    exact pump_pace _ ⟨hc, hg, hl, hlt, hw, hr, ht1⟩
  | .tick d =>
    exact ⟨hc, hg, hl, Nat.le_trans hlt (Nat.le_add_right _ _), hw, hr, ht1⟩
  | .fire i =>
    simp only [step]
    split
    next j wake heq =>
      obtain ⟨htasks, hi0⟩ := getElem?_len_le_one ht1 heq
      have hwake : wake = s.lastStartAt + s.minTimeMs := by
        refine hw j wake ?_
        rw [htasks]
        exact List.mem_singleton_self _
      refine ⟨hc, ?_, rfl, le_refl _, ?_, ?_, ?_⟩
      · cases hs : s.starts with
        | nil => simp [gapsOK]
        | cons p tl =>
          obtain ⟨j1, t1⟩ := p
          rw [hs] at hl hg
          simp only at hl
          have hgap : t1 + s.minTimeMs ≤ max s.time wake := by omega
          simp [gapsOK, hgap, hg]
      · intro j' w' hmem
        rw [htasks, hi0] at hmem
        simp [List.set] at hmem
      · simp [hr, List.length_set]
      · simp [List.length_set]
        omega
    next => exact ⟨hc, hg, hl, hlt, hw, hr, ht1⟩
  | .complete i =>
    simp only [step]
    split
    next j heq =>
      obtain ⟨htasks, hi0⟩ := getElem?_len_le_one ht1 heq
      apply pump_pace
      rw [hi0, htasks]
      refine ⟨hc, hg, hl, hlt, ?_, ?_, by simp⟩
      · intro j' w' hmem
        simp [List.eraseIdx] at hmem
      · rw [htasks] at hr
        simp at hr
        simp [hr]
    next => exact ⟨hc, hg, hl, hlt, hw, hr, ht1⟩

theorem run_pace : ∀ (evs : List Ev) (s : ThrottleQueue), PaceInv s → PaceInv (run s evs) := by
  intro evs
  induction evs with
  | nil => intro s h; exact h
  | cons e rest ih =>
    intro s h
    exact ih (step s e) (step_pace s e h)

theorem init_pace (D : Nat) : PaceInv (ThrottleQueue.init 1 D) := by
  refine ⟨rfl, rfl, rfl, le_refl _, ?_, rfl, by simp [ThrottleQueue.init]⟩
  intro j w hmem
  simp [ThrottleQueue.init] at hmem

theorem pump_fifo (s : ThrottleQueue) (h : FifoInv s) : FifoInv (ThrottleQueue.pump s) := by
  obtain ⟨hc, hsub, hr, ht1⟩ := h
  unfold ThrottleQueue.pump
  split
  · exact ⟨hc, hsub, hr, ht1⟩
  next hrun =>
    have hr0 : s.running = 0 := by omega
    have htnil : s.tasks = [] := by
      rw [hr0] at hr
      exact (List.length_eq_zero.mp hr.symm)
    split
    · exact ⟨hc, hsub, hr, ht1⟩
    next j rest heq =>
      dsimp only
      rw [htnil, heq] at hsub
      split
      · refine ⟨hc, ?_, by simp [htnil, hr0], by simp [htnil]⟩
        simp only [htnil, sleepJobs, List.filterMap_nil, List.nil_append,
          List.filterMap_cons, List.filterMap_append] at hsub ⊢
        simpa using hsub
      · refine ⟨hc, ?_, by simp [htnil, hr0], by simp [htnil]⟩
        simp only [htnil, sleepJobs, List.filterMap_nil, List.nil_append,
          List.filterMap_cons, List.filterMap_append, List.reverse_cons,
          List.map_append] at hsub ⊢
        simpa using hsub

theorem step_fifo (s : ThrottleQueue) (e : Ev) (h : FifoInv s) : FifoInv (step s e) := by
  obtain ⟨hc, hsub, hr, ht1⟩ := h
  match e with
  | .schedule j =>
    apply pump_fifo
    refine ⟨hc, ?_, hr, ht1⟩
    simp only [hsub]
    simp
  | .tick d =>
    exact ⟨hc, hsub, hr, ht1⟩
  | .fire i =>
    simp only [step]
    split
    next j wake heq =>
      obtain ⟨htasks, hi0⟩ := getElem?_len_le_one ht1 heq
      rw [htasks] at hsub
      refine ⟨hc, ?_, ?_, ?_⟩
      · rw [hi0, htasks]
        simp only [sleepJobs, List.filterMap_cons, List.filterMap_nil] at hsub ⊢
        simp only [List.set_cons_zero, List.reverse_cons, List.map_append,
          List.filterMap_cons, List.filterMap_nil]
        simpa using hsub
      · simp [hr, List.length_set]
      · simp [List.length_set]
        omega
    next => exact ⟨hc, hsub, hr, ht1⟩
  | .complete i =>
    simp only [step]
    split
    next j heq =>
      obtain ⟨htasks, hi0⟩ := getElem?_len_le_one ht1 heq
      apply pump_fifo
      rw [hi0, htasks]
      rw [htasks] at hsub hr
      refine ⟨hc, ?_, ?_, by simp⟩
      · simpa [sleepJobs] using hsub
      · simp at hr
        simp [hr]
    next => exact ⟨hc, hsub, hr, ht1⟩

theorem run_fifo : ∀ (evs : List Ev) (s : ThrottleQueue), FifoInv s → FifoInv (run s evs) := by
  intro evs
  induction evs with
  | nil => intro s h; exact h
  | cons e rest ih =>
    intro s h
    exact ih (step s e) (step_fifo s e h)

theorem init_fifo (D : Nat) : FifoInv (ThrottleQueue.init 1 D) := by
  exact ⟨rfl, rfl, rfl, by simp [ThrottleQueue.init]⟩

theorem withRetry_not_retryable {T : Type} (fn : Nat → Except JsError T)
    (opts : RetryOpts) (rand : Nat → ℚ) (e : JsError)
    (hfn : fn 0 = Except.error e)
    (hnr : shouldRetry (extractStatusCode e) e.message e = false) :
    (withRetry fn opts rand).result = Except.error e
      ∧ (withRetry fn opts rand).calls = 1
      ∧ (withRetry fn opts rand).retries = [] := by
  unfold withRetry withRetryGo
  rw [hfn]
  simp [hnr]

theorem retryDelayMs_ge_250 (b M jr : ℚ) (msg : String) (a : Nat) (rand : ℚ) :
    (250 : Int) ≤ retryDelayMs b M jr msg a rand :=
  le_max_left _ _

theorem withRetryGo_retries_ge {T : Type} (fn : Nat → Except JsError T) (mR : Nat)
    (b M jr : ℚ) (rand : Nat → ℚ) :
    ∀ (fuel k : Nat) (p : Nat × Int),
      p ∈ (withRetryGo fn mR b M jr rand k fuel).retries → (250 : Int) ≤ p.2 := by
  intro fuel
  induction fuel with
  | zero =>
    intro k p hp
    unfold withRetryGo at hp
    cases hfk : fn k with
    | ok v => rw [hfk] at hp; simp at hp
    | error err =>
      rw [hfk] at hp
      by_cases hr : shouldRetry (extractStatusCode err) err.message err <;>
        simp [hr] at hp
  | succ f ih =>
    intro k p hp
    unfold withRetryGo at hp
    cases hfk : fn k with
    | ok v => rw [hfk] at hp; simp at hp
    | error err =>
      rw [hfk] at hp
      by_cases hr : shouldRetry (extractStatusCode err) err.message err
      · simp only [hr, if_true, List.mem_cons] at hp
        rcases hp with hp | hp
        · rw [hp]
          exact retryDelayMs_ge_250 _ _ _ _ _ _
        · exact ih (k + 1) p hp
      · simp [hr] at hp

theorem withRetryGo_constErr {T : Type} (e : JsError)
    (h : shouldRetry (extractStatusCode e) e.message e = true)
    (mR : Nat) (b M jr : ℚ) (rand : Nat → ℚ) :
    ∀ fuel, fuel ≤ mR → ∀ k,
      (withRetryGo (T := T) (fun _ => Except.error e) mR b M jr rand k fuel).result
          = Except.error e
        ∧ (withRetryGo (T := T) (fun _ => Except.error e) mR b M jr rand k fuel).calls
          = k + fuel + 1
        ∧ ((withRetryGo (T := T) (fun _ => Except.error e) mR b M jr rand k fuel).retries).map
            Prod.fst = List.range' (mR - fuel + 1) fuel := by
  intro fuel
  induction fuel with
  | zero =>
    intro _ k
    unfold withRetryGo
    simp [h]
  | succ f ih =>
    intro hle k
    obtain ⟨ih1, ih2, ih3⟩ := ih (by omega) (k + 1)
    unfold withRetryGo
    simp only [h, if_true]
    refine ⟨ih1, ?_, ?_⟩
    · simp only [ih2]
      omega
    · simp only [List.map_cons, ih3]
      have hs : mR - (f + 1) + 1 = mR - f := by omega
      rw [hs, List.range'_succ]

theorem pump_dead (s : ThrottleQueue) (h : DeadInv s) : ThrottleQueue.pump s = s := by
  obtain ⟨hc, hr, _, _⟩ := h
  unfold ThrottleQueue.pump
  rw [if_pos (by omega)]

theorem step_dead (s : ThrottleQueue) (e : Ev) (h : DeadInv s) : DeadInv (step s e) := by
  obtain ⟨hc, hr, ht, hs⟩ := h
  match e with
  | .schedule j =>
    simp only [step]
    rw [pump_dead { s with queue := s.queue ++ [j], submitted := s.submitted ++ [j] }
      ⟨hc, hr, ht, hs⟩]
    exact ⟨hc, hr, ht, hs⟩
  | .tick d => exact ⟨hc, hr, ht, hs⟩
  | .fire i =>
    simp only [step, ht]
    simp
    exact ⟨hc, hr, ht, hs⟩
  | .complete i =>
    simp only [step, ht]
    simp
    exact ⟨hc, hr, ht, hs⟩

theorem run_dead : ∀ (evs : List Ev) (s : ThrottleQueue), DeadInv s → DeadInv (run s evs) := by
  intro evs
  induction evs with
  | nil => intro s h; exact h
  | cons e rest ih =>
    intro s h
    exact ih (step s e) (step_dead s e h)

theorem init_inv2 (c D : Nat) : Inv2 (ThrottleQueue.init c D) :=
  ⟨rfl, Nat.zero_le _, rfl⟩

/-- C1 counterexample: with `concurrency = 3` and `minTimeMs = 5`, three jobs
scheduled in the same tick at t = 100 make jobs 2 and 3 compute their pacing
wait from the same `lastStartAt = 100` (which is only updated after the
sleep), so both sleep until t = 105 and both start there: two consecutively
dispatched jobs with start gap 0 < 5.  This refutes the claim that consecutive
start timestamps are at least `minTimeMs` apart at any concurrency setting. -/
theorem C1_counterexample :
    (run (ThrottleQueue.init 3 5)
        [Ev.tick 100, Ev.schedule 1, Ev.schedule 2, Ev.schedule 3,
         Ev.fire 1, Ev.fire 2]).starts = [(3, 105), (2, 105), (1, 100)]
      ∧ gapsOK 5 (run (ThrottleQueue.init 3 5)
          [Ev.tick 100, Ev.schedule 1, Ev.schedule 2, Ev.schedule 3,
           Ev.fire 1, Ev.fire 2]).starts = false := by
  constructor
  · decide
  · decide

/-- C1 (amended): with `concurrency = 1` the pacing guarantee does hold — in
every reachable state of a queue built with concurrency 1 and `minTimeMs = D`,
any two consecutive start timestamps are at least `D` apart.  (For
concurrency at least 2 the guarantee fails, see the counterexample.) -/
theorem C1_amended_pacing (D : Nat) (s : ThrottleQueue) (h : Reachable 1 D s) :
    gapsOK D s.starts = true := by
  obtain ⟨evs, rfl⟩ := h
  have hmin : (run (ThrottleQueue.init 1 D) evs).minTimeMs = D := by
    rw [run_minTimeMs]
    rfl
  have hp := run_pace evs _ (init_pace D)
  have hg := hp.2.1
  rw [hmin] at hg
  exact hg

theorem C1_amended_pacing_witness :
    gapsOK 5 (run (ThrottleQueue.init 1 5)
      [Ev.tick 100, Ev.schedule 10, Ev.schedule 20, Ev.complete 0,
       Ev.fire 0]).starts = true :=
  C1_amended_pacing 5
    (run (ThrottleQueue.init 1 5)
      [Ev.tick 100, Ev.schedule 10, Ev.schedule 20, Ev.complete 0, Ev.fire 0])
    ⟨[Ev.tick 100, Ev.schedule 10, Ev.schedule 20, Ev.complete 0, Ev.fire 0], rfl⟩

/-- C2: in every reachable state the running counter is bounded by the
concurrency parameter (it is a `Nat`, so `0 ≤ running` holds by type) and
equals the number of in-flight `pump` instances, so at most `concurrency`
jobs execute concurrently; moreover at most `concurrency + completed` jobs
have ever started, so with blocking bodies the (N+1)-th job can only start
after one of the first N completes. -/
theorem C2_running_bounds (c D : Nat) (s : ThrottleQueue) (h : Reachable c D s) :
    s.running ≤ c ∧ s.running = s.tasks.length
      ∧ s.starts.length ≤ c + s.completed := by
  obtain ⟨evs, rfl⟩ := h
  have hc : (run (ThrottleQueue.init c D) evs).concurrency = c := by
    rw [run_concurrency]
    rfl
  obtain ⟨h1, h2, h3⟩ := run_inv2 evs _ (init_inv2 c D)
  rw [hc] at h2
  refine ⟨h2, h1, ?_⟩
  have hcount : countRB (run (ThrottleQueue.init c D) evs).tasks
      ≤ (run (ThrottleQueue.init c D) evs).tasks.length :=
    List.length_filter_le _ _
  omega

theorem C2_running_bounds_witness :
    (run (ThrottleQueue.init 2 5) [Ev.schedule 1, Ev.schedule 2, Ev.schedule 3]).running ≤ 2
      ∧ (run (ThrottleQueue.init 2 5) [Ev.schedule 1, Ev.schedule 2, Ev.schedule 3]).running
        = (run (ThrottleQueue.init 2 5) [Ev.schedule 1, Ev.schedule 2, Ev.schedule 3]).tasks.length
      ∧ (run (ThrottleQueue.init 2 5) [Ev.schedule 1, Ev.schedule 2, Ev.schedule 3]).starts.length
        ≤ 2 + (run (ThrottleQueue.init 2 5) [Ev.schedule 1, Ev.schedule 2, Ev.schedule 3]).completed :=
  C2_running_bounds 2 5
    (run (ThrottleQueue.init 2 5) [Ev.schedule 1, Ev.schedule 2, Ev.schedule 3])
    ⟨[Ev.schedule 1, Ev.schedule 2, Ev.schedule 3], rfl⟩

/-- C3: `shouldRetry` returns true exactly when the extracted status is 429,
or the lowercased message contains one of the substrings resource_exhausted,
quota, rate limit, network, fetch, timeout, or the nested response status is
429; and on any non-retryable failure `withRetry` rethrows that very error
after a single invocation, with no retry and no observer call. -/
theorem C3_classification :
    (∀ e : JsError, shouldRetry (extractStatusCode e) e.message e = true ↔ retryableSpec e)
      ∧ (∀ (T : Type) (fn : Nat → Except JsError T) (opts : RetryOpts) (rand : Nat → ℚ)
          (e : JsError), fn 0 = Except.error e →
          shouldRetry (extractStatusCode e) e.message e = false →
          (withRetry fn opts rand).result = Except.error e
            ∧ (withRetry fn opts rand).calls = 1
            ∧ (withRetry fn opts rand).retries = []) := by
  constructor
  · intro e
    simp only [shouldRetry, retryableSpec]
    split_ifs with h1 h2 h3 h4 h5 h6 h7 <;> simp_all <;> tauto
  · intro T fn opts rand e hfn hnr
    exact withRetry_not_retryable fn opts rand e hfn hnr

theorem C3_classification_witness :
    (withRetry (T := Nat) (fun _ => Except.error invalidArgErr) {} (fun _ => 0)).result
        = Except.error invalidArgErr
      ∧ (withRetry (T := Nat) (fun _ => Except.error invalidArgErr) {} (fun _ => 0)).calls = 1
      ∧ (withRetry (T := Nat) (fun _ => Except.error invalidArgErr) {} (fun _ => 0)).retries
        = [] :=
  C3_classification.2 Nat _ {} _ invalidArgErr rfl (by decide)

/-- C4: on an operation that fails on every call with a retryable error, the
error is rethrown exactly when `attempt > maxRetries`: the operation is
invoked `maxRetries + 1` times in total, the observer sees attempts
1, 2, ..., maxRetries in order, and the original error object is propagated
unchanged.  With `maxRetries = 2` this is exactly 3 invocations. -/
theorem C4_retry_budget (T : Type) (e : JsError) (opts : RetryOpts) (rand : Nat → ℚ)
    (h : shouldRetry (extractStatusCode e) e.message e = true) :
    (withRetry (T := T) (fun _ => Except.error e) opts rand).result = Except.error e
      ∧ (withRetry (T := T) (fun _ => Except.error e) opts rand).calls = opts.maxRetries + 1
      ∧ ((withRetry (T := T) (fun _ => Except.error e) opts rand).retries).map Prod.fst
        = List.range' 1 opts.maxRetries := by
  obtain ⟨h1, h2, h3⟩ := withRetryGo_constErr (T := T) e h opts.maxRetries opts.baseDelayMs
    opts.maxDelayMs opts.jitterRatio rand opts.maxRetries (le_refl _) 0
  unfold withRetry
  refine ⟨h1, ?_, ?_⟩
  · rw [h2]
    omega
  · rw [h3]
    congr 1
    omega

theorem C4_retry_budget_witness :
    (withRetry (T := Nat) (fun _ => Except.error resourceExhaustedErr) { maxRetries := 2 }
        (fun _ => 1 / 2)).calls = 2 + 1 :=
  (C4_retry_budget Nat resourceExhaustedErr { maxRetries := 2 } (fun _ => 1 / 2)
    (by decide)).2.1

/-- C5: at the jitter midpoint (`Math.random() = 1/2`, where the jitter term
vanishes) the computed delay is exactly the clamp-and-round of the base delay
`max(serverAdvisedMs or 0, min(maxDelayMs, baseDelayMs * 2^(attempt-1)))`;
the message "RetryDelay: 14s" parses to a server advice of 14000 ms; the
server advice always lower-bounds the base delay, so it is never capped by
`maxDelayMs`; and with `baseDelayMs = 1200, maxDelayMs = 20000` the base delay
for "RetryDelay: 14s" at attempt 1 is max(14000, 1200) = 14000. -/
theorem C5_server_hint_uncapped :
    (∀ (b M jr : ℚ) (msg : String) (a : Nat),
        retryDelayMs b M jr msg a (1 / 2) = max 250 (jsRound (preJitterDelaySpec b M msg a)))
      ∧ parseRetryDelayMs "RetryDelay: 14s" = some 14000
      ∧ (∀ (b M : ℚ) (msg : String) (a n : Nat), parseRetryDelayMs msg = some n →
          (n : ℚ) ≤ preJitterDelaySpec b M msg a)
      ∧ preJitterDelaySpec 1200 20000 "RetryDelay: 14s" 1 = 14000 := by
  refine ⟨?_, by decide, ?_, ?_⟩
  · intro b M jr msg a
    simp only [retryDelayMs, preJitterDelaySpec]
    have h0 : ((1 : ℚ) / 2) * 2 - 1 = 0 := by norm_num
    rw [h0, mul_zero, add_zero]
  · intro b M msg a n h
    simp only [preJitterDelaySpec, h, Option.elim]
    exact le_max_left _ _
  · have h14 : parseRetryDelayMs "RetryDelay: 14s" = some 14000 := by decide
    simp only [preJitterDelaySpec, h14, Option.elim]
    norm_num

theorem C5_server_hint_uncapped_witness :
    ((14000 : Nat) : ℚ) ≤ preJitterDelaySpec 1200 20000 "RetryDelay: 14s" 1 :=
  C5_server_hint_uncapped.2.2.1 1200 20000 "RetryDelay: 14s" 1 14000 (by decide)

/-- C6: the claim says construction with `concurrency = 0` fails eagerly, but
the constructor performs no validation: the queue is created, accepts
submissions (the scheduled job stays queued), and no job ever starts in any
reachable state — the silent hang the claim says is prevented. -/
theorem C6_zero_concurrency_hangs :
    (run (ThrottleQueue.init 0 1200) [Ev.schedule 1]).queue = [1]
      ∧ (∀ (D : Nat) (s : ThrottleQueue), Reachable 0 D s →
          s.starts = [] ∧ s.tasks = [] ∧ s.running = 0) := by
  constructor
  · decide
  · intro D s h
    obtain ⟨evs, rfl⟩ := h
    obtain ⟨_, hr, ht, hs⟩ :=
      run_dead evs (ThrottleQueue.init 0 D) ⟨rfl, rfl, rfl, rfl⟩
    exact ⟨hs, ht, hr⟩

theorem C6_zero_concurrency_hangs_witness :
    (run (ThrottleQueue.init 0 7) [Ev.schedule 1, Ev.tick 5, Ev.fire 0]).starts = []
      ∧ (run (ThrottleQueue.init 0 7) [Ev.schedule 1, Ev.tick 5, Ev.fire 0]).tasks = []
      ∧ (run (ThrottleQueue.init 0 7) [Ev.schedule 1, Ev.tick 5, Ev.fire 0]).running = 0 :=
  C6_zero_concurrency_hangs.2 7
    (run (ThrottleQueue.init 0 7) [Ev.schedule 1, Ev.tick 5, Ev.fire 0])
    ⟨[Ev.schedule 1, Ev.tick 5, Ev.fire 0], rfl⟩

/-- C7: with `concurrency = 1`, in every reachable state the chronological
list of started jobs is a prefix of the submission log — jobs start in exactly
their submission order, with no reordering. -/
theorem C7_fifo_order (D : Nat) (s : ThrottleQueue) (h : Reachable 1 D s) :
    ∃ rest, s.starts.reverse.map Prod.fst ++ rest = s.submitted := by
  obtain ⟨evs, rfl⟩ := h
  have hf := run_fifo evs _ (init_fifo D)
  refine ⟨sleepJobs (run (ThrottleQueue.init 1 D) evs).tasks
    ++ (run (ThrottleQueue.init 1 D) evs).queue, ?_⟩
  rw [← List.append_assoc]
  exact hf.2.1.symm

theorem C7_fifo_order_witness :
    ∃ rest,
      (run (ThrottleQueue.init 1 5)
          [Ev.tick 100, Ev.schedule 10, Ev.schedule 20, Ev.complete 0,
           Ev.fire 0]).starts.reverse.map Prod.fst ++ rest
        = (run (ThrottleQueue.init 1 5)
            [Ev.tick 100, Ev.schedule 10, Ev.schedule 20, Ev.complete 0,
             Ev.fire 0]).submitted :=
  C7_fifo_order 5
    (run (ThrottleQueue.init 1 5)
      [Ev.tick 100, Ev.schedule 10, Ev.schedule 20, Ev.complete 0, Ev.fire 0])
    ⟨[Ev.tick 100, Ev.schedule 10, Ev.schedule 20, Ev.complete 0, Ev.fire 0], rfl⟩

/-- C8: the delay computed for any retry is `Math.max(250, Math.round(...))`,
an integer (the codomain is `Int`) at least 250 whatever value the jitter
draw takes; consequently every `delayMs` recorded for the observer (and
slept) is at least 250. -/
theorem C8_delay_floor :
    (∀ (b M jr : ℚ) (msg : String) (a : Nat) (rand : ℚ),
        (250 : Int) ≤ retryDelayMs b M jr msg a rand)
      ∧ (∀ (T : Type) (fn : Nat → Except JsError T) (opts : RetryOpts) (rand : Nat → ℚ)
          (p : Nat × Int), p ∈ (withRetry fn opts rand).retries → (250 : Int) ≤ p.2) := by
  constructor
  · intro b M jr msg a rand
    exact retryDelayMs_ge_250 b M jr msg a rand
  · intro T fn opts rand p hp
    exact withRetryGo_retries_ge fn opts.maxRetries opts.baseDelayMs opts.maxDelayMs
      opts.jitterRatio rand opts.maxRetries 0 p hp

theorem C8_delay_floor_witness : (250 : Int) ≤ ((1 : Nat), (1200 : Int)).2 :=
  C8_delay_floor.2 Nat (fun _ => Except.error resourceExhaustedErr) { maxRetries := 1 }
    (fun _ => 1 / 2) (1, 1200) (by
      have hsr : shouldRetry (extractStatusCode resourceExhaustedErr)
          resourceExhaustedErr.message resourceExhaustedErr = true := by decide
      have hparse : parseRetryDelayMs "RESOURCE_EXHAUSTED" = none := by decide
      have hd : retryDelayMs 1200 20000 (1 / 4) "RESOURCE_EXHAUSTED" 1 (1 / 2) = 1200 := by
        simp only [retryDelayMs, hparse, Option.elim]
        norm_num [jsRound, min_def, max_def]
      have hmsg : resourceExhaustedErr.message = "RESOURCE_EXHAUSTED" := rfl
      rw [hmsg] at hsr
      simp only [withRetry, withRetryGo, if_true, hmsg, hd, Nat.sub_zero]
      simp [hsr])

/-- C9: a 500/502/503/504 status — from a field or mined from the message —
never makes a failure retryable by itself: if no retryable substring occurs in
the lowercased message and no 429 response status is present, `shouldRetry` is
false and `withRetry` rethrows the error after one invocation with no delay
and no observer call. -/
theorem C9_5xx_not_retryable (e : JsError) (st : Int)
    (hst : extractStatusCode e = some st)
    (h5 : st = 500 ∨ st = 502 ∨ st = 503 ∨ st = 504)
    (hsub : containsSubChars (lowerData e.message) "resource_exhausted".data = false
      ∧ containsSubChars (lowerData e.message) "quota".data = false
      ∧ containsSubChars (lowerData e.message) "rate limit".data = false
      ∧ containsSubChars (lowerData e.message) "network".data = false
      ∧ containsSubChars (lowerData e.message) "fetch".data = false
      ∧ containsSubChars (lowerData e.message) "timeout".data = false)
    (hresp : e.respStatus ≠ some 429) :
    shouldRetry (extractStatusCode e) e.message e = false
      ∧ (∀ (T : Type) (fn : Nat → Except JsError T) (opts : RetryOpts) (rand : Nat → ℚ),
          fn 0 = Except.error e →
          (withRetry fn opts rand).result = Except.error e
            ∧ (withRetry fn opts rand).calls = 1
            ∧ (withRetry fn opts rand).retries = []) := by
  obtain ⟨hs1, hs2, hs3, hs4, hs5, hs6⟩ := hsub
  have hf : shouldRetry (extractStatusCode e) e.message e = false := by
    rw [hst]
    simp only [shouldRetry]
    rw [if_neg (by rcases h5 with h | h | h | h <;> simp [h])]
    simp [hs1, hs2, hs3, hs4, hs5, hs6, hresp]
  exact ⟨hf, fun T fn opts rand hfn => withRetry_not_retryable fn opts rand e hfn hf⟩

theorem C9_5xx_not_retryable_witness :
    shouldRetry (extractStatusCode serverErr502) serverErr502.message serverErr502 = false :=
  (C9_5xx_not_retryable serverErr502 502 (by decide) (Or.inr (Or.inl rfl)) (by decide)
    (by decide)).1

/-- C10: a freshly constructed queue has `lastStartAt = 0`; the pacing wait of
the first dispatch is `max(0, minTimeMs - now) = 0` whenever the clock reading
is at least `minTimeMs`, so the first job scheduled at such a time starts
immediately at that very time, with no pacing sleep. -/
theorem C10_first_dispatch_unpaced :
    (∀ c D : Nat, (ThrottleQueue.init c D).lastStartAt = 0)
      ∧ (∀ D t : Nat, D ≤ t → pacingWait D t 0 = 0)
      ∧ (∀ c D t j : Nat, 1 ≤ c → D ≤ t →
          (run (ThrottleQueue.init c D) [Ev.tick t, Ev.schedule j]).starts = [(j, t)]
            ∧ (run (ThrottleQueue.init c D) [Ev.tick t, Ev.schedule j]).tasks
              = [PumpTask.runningBody j]) := by
  refine ⟨fun c D => rfl, ?_, ?_⟩
  · intro D t h
    unfold pacingWait
    omega
  · intro c D t j hc ht
    simp only [run, List.foldl, step, ThrottleQueue.init]
    unfold ThrottleQueue.pump
    rw [if_neg (by simp; omega)]
    simp only [List.nil_append]
    rw [if_neg (by unfold pacingWait; simp; omega)]
    simp

theorem C10_first_dispatch_unpaced_witness :
    (run (ThrottleQueue.init 1 1200) [Ev.tick 1400, Ev.schedule 1]).starts = [(1, 1400)]
      ∧ (run (ThrottleQueue.init 1 1200) [Ev.tick 1400, Ev.schedule 1]).tasks
        = [PumpTask.runningBody 1] :=
  C10_first_dispatch_unpaced.2.2 1 1200 1400 1 (by decide) (by decide)
